import Mathlib

/-
Verification of the shapefile-to-PostGIS ingestion pipeline
(`ingestion_from_shp.py`, `utils_db.py`).

Python strings are modelled as lists of characters (`PyStr`), Python's
`None`-able values as `Option`, fallible calls as `Except`, and the
database side effects of the post-load / policy steps as explicit traces
of statements executed against an oracle that says which statements fail.
All definitions are computable and structurally recursive so concrete
inputs evaluate by `decide`.
-/

/-- Python strings, modelled as lists of characters. -/
abbrev PyStr := List Char

/-- The underscore character. -/
def usChar : Char := '_'

/-- The letter Z. -/
def zChar : Char := 'Z'

/-- The letter M. -/
def mChar : Char := 'M'

/-- Membership in the character class `[a-z0-9_]` used by `slugify`'s regexes. -/
def isWordChar (c : Char) : Bool :=
  (97 ≤ c.toNat && c.toNat ≤ 122) || (48 ≤ c.toNat && c.toNat ≤ 57) || c.toNat == 95

/-- Python `str.lower` on one character (ASCII range, as exercised by the code). -/
def pyLowerChar (c : Char) : Char :=
  if 65 ≤ c.toNat ∧ c.toNat ≤ 90 then Char.ofNat (c.toNat + 32) else c

/-- Python `str.upper` on one character (ASCII range, as exercised by the code). -/
def pyUpperChar (c : Char) : Char :=
  if 97 ≤ c.toNat ∧ c.toNat ≤ 122 then Char.ofNat (c.toNat - 32) else c

/-- Python `str.lower`. -/
def pyLower (s : PyStr) : PyStr := s.map pyLowerChar

/-- Python `str.upper`. -/
def pyUpper (s : PyStr) : PyStr := s.map pyUpperChar

/-- `re.sub(r"[^a-z0-9_]+", "_", s)`: each maximal run of characters outside
`[a-z0-9_]` becomes a single underscore.  The boolean records whether we are
inside such a run. -/
def subNonWord : Bool → PyStr → PyStr
  | _, [] => []
  | inRun, c :: cs =>
    if isWordChar c then c :: subNonWord false cs
    else if inRun then subNonWord true cs
    else usChar :: subNonWord true cs

/-- `re.sub(r"_+", "_", s)`: each run of underscores becomes a single one.
The boolean records whether the previous character was an underscore. -/
def collapseUS : Bool → PyStr → PyStr
  | _, [] => []
  | prevUS, c :: cs =>
    if c = usChar then
      (if prevUS then collapseUS true cs else usChar :: collapseUS true cs)
    else c :: collapseUS false cs

/-- Drop leading underscores (left half of Python `strip("_")`). -/
def lstripUS (s : PyStr) : PyStr := s.dropWhile (fun c => c = usChar)

/-- One step of trailing-underscore removal: prepend `c` to an already
right-stripped tail, dropping `c` itself when the tail vanished and `c` is an
underscore. -/
def rstripAux (c : Char) (r : PyStr) : PyStr :=
  match r with
  | [] => if c = usChar then [] else [c]
  | r => c :: r

/-- Drop trailing underscores (right half of Python `strip("_")`). -/
def rstripUS : PyStr → PyStr
  | [] => []
  | c :: cs => rstripAux c (rstripUS cs)

/-- `PG_NAME_MAXLEN = 63` from `ingestion_from_shp.py`. -/
def PG_NAME_MAXLEN : Nat := 63

/-- `slugify` from `ingestion_from_shp.py`:
lower-case, collapse non-`[a-z0-9_]` runs to `_`, collapse `_` runs,
strip `_` from both ends, truncate to `PG_NAME_MAXLEN`. -/
def slugify (name : PyStr) : PyStr :=
  let lowered := pyLower name
  let worded := subNonWord false lowered
  let collapsed := collapseUS false worded
  let stripped := rstripUS (lstripUS collapsed)
  stripped.take PG_NAME_MAXLEN

/-- Whether a string contains two consecutive underscores. -/
def hasDoubleUS : PyStr → Bool
  | [] => false
  | [_] => false
  | c :: d :: rest => (c == usChar && d == usChar) || hasDoubleUS (d :: rest)

/-- The decimal digit characters. -/
def digitChar (d : Nat) : Char := Char.ofNat (48 + d)

/-- Little-endian decimal digits of `n`, with explicit fuel (`fuel ≥ n` is
enough, we always call it with `fuel = n`). -/
def decDigits : Nat → Nat → List Nat
  | 0, _ => []
  | _ + 1, 0 => []
  | fuel + 1, n + 1 => ((n + 1) % 10) :: decDigits fuel ((n + 1) / 10)

/-- Value of a little-endian decimal digit list. -/
def decVal : List Nat → Nat
  | [] => 0
  | d :: ds => d + 10 * decVal ds

/-- Python `str(n)` for a natural number. -/
def pyIntRepr (n : Nat) : PyStr :=
  if n = 0 then [digitChar 0] else ((decDigits n n).map digitChar).reverse

/-- The literal column name `"geometry"`. -/
def geometryStr : PyStr := "geometry".toList

/-- The literal default column name `"col"`. -/
def colStr : PyStr := "col".toList

/-- The candidate `f"{base}_{i}"` tried by `sanitize_columns`' collision loop. -/
def sufCand (base : PyStr) (i : Nat) : PyStr := base ++ usChar :: pyIntRepr i

/-- The loop guard of `sanitize_columns`, negated: `cc` is acceptable when it is
not among the already-used names and is not `"geometry"`. -/
def isFreeB (seen : List PyStr) (cc : PyStr) : Bool :=
  !(decide (cc ∈ seen) || decide (cc = geometryStr))

/-- The `while cc in seen or cc == "geometry": cc = f"{base}_{i}"; i += 1` loop,
with explicit fuel.  `resolveName` supplies enough fuel for the loop to always
reach a free name. -/
def findSuf (seen : List PyStr) (base : PyStr) : Nat → Nat → PyStr
  | i, 0 => sufCand base i
  | i, fuel + 1 =>
    if isFreeB seen (sufCand base i) then sufCand base i
    else findSuf seen base (i + 1) fuel

/-- Collision resolution for one column name: keep `cc` if free, otherwise try
`cc_2`, `cc_3`, … . -/
def resolveName (seen : List PyStr) (cc : PyStr) : PyStr :=
  if isFreeB seen cc then cc else findSuf seen cc 2 (seen.length + 2)

/-- `slugify(c) or "col"`: the empty slug defaults to `"col"`. -/
def defaultSlug (c : PyStr) : PyStr :=
  let s := slugify c
  if s = [] then colStr else s

/-- The loop body of `sanitize_columns`, threading the `seen` set (modelled as
the list of already-assigned names). -/
def sanitizeGo : List PyStr → List PyStr → List PyStr
  | [], _ => []
  | c :: rest, seen =>
    if c = geometryStr then c :: sanitizeGo rest seen
    else
      let cc := resolveName seen (defaultSlug c)
      cc :: sanitizeGo rest (cc :: seen)

/-- `sanitize_columns` from `ingestion_from_shp.py`, acting on the list of
column names. -/
def sanitize_columns (cols : List PyStr) : List PyStr := sanitizeGo cols []

/-- Python `t.replace("Z", "")`: remove every `Z`. -/
def replaceZ : PyStr → PyStr
  | [] => []
  | c :: cs => if c = zChar then replaceZ cs else c :: replaceZ cs

/-- Python `t.replace("ZM", "")`: remove every (non-overlapping, left-to-right)
occurrence of `ZM`. -/
def replaceZM : PyStr → PyStr
  | [] => []
  | [c] => [c]
  | c :: d :: rest =>
    if c = zChar ∧ d = mChar then replaceZM rest else c :: replaceZM (d :: rest)

/-- Python `s.endswith(c)` for a single character. -/
def endsWithCh (c : Char) (s : PyStr) : Bool := s.getLast? == some c

/-- Python `s.endswith("ZM")`. -/
def endsWithZM (s : PyStr) : Bool :=
  match s.reverse with
  | b :: a :: _ => a == zChar && b == mChar
  | _ => false

/-- The per-type normalization inside `geom_type_for_column`:
`if t.endswith("ZM") or t.endswith("Z"): t = t.replace("ZM","").replace("Z","")`. -/
def normZSuffix (t : PyStr) : PyStr :=
  if endsWithZM t || endsWithCh zChar t then replaceZ (replaceZM t) else t

/-- The set (modelled as a deduplicated list) of normalized base geometry types
computed by `geom_type_for_column`: distinct upper-cased geometry type names,
each with its Z/ZM decoration removed. -/
def baseGeomTypes (types : List PyStr) : List PyStr :=
  (((types.dedup.map pyUpper).dedup).map normZSuffix).dedup

/-- `geom_type_for_column` from `ingestion_from_shp.py`: the input is the list
of (non-null) geometry type names of the collection, plus the Z flag. -/
def geom_type_for_column (types : List PyStr) (z : Bool) : PyStr × Bool :=
  let ts := baseGeomTypes types
  if ts.length = 0 then ((if z then "GEOMETRYZ".toList else "GEOMETRY".toList), true)
  else if ts.length = 1 then
    ((if z then ts.headI ++ [zChar] else ts.headI), false)
  else ((if z then "GEOMETRYZ".toList else "GEOMETRY".toList), true)

/-- `_geom_family` from `utils_db.py`: fixed-priority family classification of
the collection's (non-null) geometry type names. -/
def geom_family (types : List PyStr) : PyStr :=
  let fams := (types.map pyUpper).dedup
  if fams.any (fun t => t == "POLYGON".toList || t == "MULTIPOLYGON".toList) then
    "MULTIPOLYGON".toList
  else if fams.any (fun t => t == "LINESTRING".toList || t == "MULTILINESTRING".toList) then
    "MULTILINESTRING".toList
  else if fams.any (fun t => t == "POINT".toList || t == "MULTIPOINT".toList) then
    "MULTIPOINT".toList
  else "GEOMETRY".toList

/-- The encoding name `"utf-8"`. -/
def utf8Str : PyStr := "utf-8".toList

/-- The encoding name `"latin-1"`. -/
def latin1Str : PyStr := "latin-1".toList

/-- The encoding name `"cp1252"`. -/
def cp1252Str : PyStr := "cp1252".toList

/-- The fixed fallback encodings, in the order both readers try them. -/
def fallbackEncodings : List PyStr := [utf8Str, latin1Str, cp1252Str]

/-- The static `.cpg` hint lookup table (`enc_map` / `map_enc`); unknown hints
pass through lower-cased. -/
def encMapLookup (raw : PyStr) : PyStr :=
  if raw = "UTF-8".toList then utf8Str
  else if raw = "UTF8".toList then utf8Str
  else if raw = "LATIN1".toList then latin1Str
  else if raw = "ISO-8859-1".toList then latin1Str
  else if raw = "CP1252".toList then cp1252Str
  else if raw = "WINDOWS-1252".toList then cp1252Str
  else pyLower raw

/-- A single-quote character, for Python `repr` of strings. -/
def squoteChar : Char := Char.ofNat 39

/-- Python `repr` of one (quote-free) string. -/
def quoteEnc (s : PyStr) : PyStr := squoteChar :: s ++ [squoteChar]

/-- Join with `", "`. -/
def commaSepJoin : List PyStr → PyStr
  | [] => []
  | [x] => x
  | x :: y :: rest => x ++ ", ".toList ++ commaSepJoin (y :: rest)

/-- Python `repr` of a list of strings, as interpolated by the f-string in
`_read_gdf_try_encodings`'s error message. -/
def pyReprStrList (l : List PyStr) : PyStr :=
  '[' :: commaSepJoin (l.map quoteEnc) ++ [']']

/-- The `RuntimeError` message built by `_read_gdf_try_encodings` when every
attempt fails: it interpolates the trial list and the last per-encoding error,
and nothing else. -/
def readErrMsg (trials : List PyStr) (last_err : Option PyStr) : PyStr :=
  "Impossible de lire le SHP (encodings testés: ".toList ++ pyReprStrList trials
    ++ "). Dernière erreur: ".toList
    ++ (match last_err with | none => "None".toList | some e => e)

/-- The `trials = []; if enc_hint: trials.append(enc_hint)` prefix common to
both readers. -/
def hintPart (enc_hint : Option PyStr) : List PyStr :=
  match enc_hint with
  | some h => [h]
  | none => []

/-- The trial list `[enc_hint] + ["utf-8", "latin-1", "cp1252"]` of
`_read_gdf_try_encodings`. -/
def hintTrials (enc_hint : Option PyStr) : List PyStr :=
  hintPart enc_hint ++ fallbackEncodings

/-- The encoding loop of `_read_gdf_try_encodings`: try each trial, remembering
the last error; then one auto-detect attempt (`readFile none`); on total
failure raise the `RuntimeError` naming the trials and the last error. -/
def goReadTrials {G : Type} (readFile : Option PyStr → Except PyStr G)
    (trials : List PyStr) : List PyStr → Option PyStr → Except PyStr G
  | [], last_err =>
    match readFile none with
    | .ok g => .ok g
    | .error _ => .error (readErrMsg trials last_err)
  | enc :: rest, _last_err =>
    match readFile (some enc) with
    | .ok g => .ok g
    | .error e => goReadTrials readFile trials rest (some e)

/-- `_read_gdf_try_encodings` from `utils_db.py`.  `readFile path enc` models
`gpd.read_file(path, encoding=enc)` (`enc = none` is the auto-detect call);
its `Except` error is the stringified exception. -/
def read_gdf_try_encodings {G : Type} (readFile : PyStr → Option PyStr → Except PyStr G)
    (path : PyStr) (enc_hint : Option PyStr) : Except PyStr G :=
  goReadTrials (readFile path) (hintTrials enc_hint) (hintTrials enc_hint) none

/-- Python whitespace characters stripped by `str.strip()` (ASCII range). -/
def isPySpace (c : Char) : Bool :=
  c.toNat == 32 || (9 ≤ c.toNat && c.toNat ≤ 13)

/-- Drop trailing whitespace. -/
def rstripWS : PyStr → PyStr
  | [] => []
  | c :: cs =>
    match rstripWS cs with
    | [] => if isPySpace c then [] else [c]
    | r => c :: r

/-- Python `str.strip()`. -/
def pyStripWS (s : PyStr) : PyStr := rstripWS (s.dropWhile isPySpace)

/-- The sidecar hint computed by `read_shp_robust` from the `.cpg` content (if
the sidecar file exists): strip, upper-case, look up in the static table. -/
def cpgHint (cpgContent : Option PyStr) : Option PyStr :=
  match cpgContent with
  | none => none
  | some raw => some (encMapLookup (pyUpper (pyStripWS raw)))

/-- The trial list of `read_shp_robust`: `filter(None, [enc_hint, "utf-8",
"latin-1", "cp1252"])` — a missing hint and an empty-string hint are both
dropped (both are falsy). -/
def robustTrials (enc_hint : Option PyStr) : List PyStr :=
  (hintPart enc_hint ++ fallbackEncodings).filter (fun e => !e.isEmpty)

/-- The encoding loop of `read_shp_robust`: on total failure the final
auto-detect attempt's outcome is returned as-is (no custom error is built). -/
def goRobust {G : Type} (readFile : Option PyStr → Except PyStr G) :
    List PyStr → Except PyStr G
  | [] => readFile none
  | enc :: rest =>
    match readFile (some enc) with
    | .ok g => .ok g
    | .error _ => goRobust readFile rest

/-- `read_shp_robust` from `ingestion_from_shp.py`.  `cpgContent` is the text
of the `.cpg` sidecar when it exists. -/
def read_shp_robust {G : Type} (readFile : PyStr → Option PyStr → Except PyStr G)
    (path : PyStr) (cpgContent : Option PyStr) : Except PyStr G :=
  goRobust (readFile path) (robustTrials (cpgHint cpgContent))

/-- Substring test (`needle appears somewhere in haystack`). -/
def containsSub (s pat : PyStr) : Bool := s.tails.any pat.isPrefixOf

/-- The SQL statements issued by the two post-load finalizers, abstracted. -/
inductive PgStmt : Type
  | renameGeom
  | createGix
  | addIdColumn
  | addPrimaryKey
  | coerceMulti (fam : PyStr) (srid : Int)
  | analyzeTable
  deriving DecidableEq

/-- A statement execution, either bare (an exception propagates) or wrapped in
`try: ... except Exception: pass` (an exception is swallowed). -/
inductive DbAct : Type
  | must (s : PgStmt)
  | tryIgnore (s : PgStmt)
  deriving DecidableEq

/-- Run a sequence of statements against a failure oracle, ignoring the
transaction-aborting effect of a failure (`runDbActsTx` below models that):
the result is the trace of successfully executed statements; a failing bare
statement aborts with that statement as the error, a failing wrapped statement
is skipped.  This coincides with the source exactly on runs where no statement
fails. -/
def runDbActs (fails : PgStmt → Bool) : List DbAct → Except PgStmt (List PgStmt)
  | [] => .ok []
  | DbAct.must s :: rest =>
    if fails s then .error s
    else (runDbActs fails rest).map (fun tr => s :: tr)
  | DbAct.tryIgnore s :: rest =>
    if fails s then runDbActs fails rest
    else (runDbActs fails rest).map (fun tr => s :: tr)

/-- The post-load block of `to_postgis` (`ingestion_from_shp.py`): optional
rename of `geometry` to `geom`, spatial index, surrogate id column, a
swallowed primary-key attempt, and `ANALYZE`. -/
def to_postgis_finalize_acts (renameNeeded : Bool) : List DbAct :=
  (if renameNeeded then [DbAct.must PgStmt.renameGeom] else [])
    ++ [DbAct.must PgStmt.createGix, DbAct.must PgStmt.addIdColumn,
        DbAct.tryIgnore PgStmt.addPrimaryKey, DbAct.must PgStmt.analyzeTable]

/-- Run the `to_postgis` post-load block. -/
def to_postgis_finalize (fails : PgStmt → Bool) (renameNeeded : Bool) :
    Except PgStmt (List PgStmt) :=
  runDbActs fails (to_postgis_finalize_acts renameNeeded)

/-- Python truthiness of the `srid` value (`None` and `0` are falsy). -/
def sridTruthy : Option Int → Bool
  | none => false
  | some n => n != 0

/-- `fam in ("MULTIPOLYGON", "MULTILINESTRING", "MULTIPOINT")`. -/
def famIsMulti (fam : PyStr) : Bool :=
  fam == "MULTIPOLYGON".toList || fam == "MULTILINESTRING".toList
    || fam == "MULTIPOINT".toList

/-- The post-load block of `upload_shapefile_zip` (`utils_db.py`): surrogate id
column, swallowed primary-key attempt, conditional multi/2D coercion, spatial
index, `ANALYZE`. -/
def upload_finalize_acts (fam : PyStr) (srid : Option Int) : List DbAct :=
  [DbAct.must PgStmt.addIdColumn, DbAct.tryIgnore PgStmt.addPrimaryKey]
    ++ (match srid with
        | some n =>
          if n != 0 && famIsMulti fam then [DbAct.must (PgStmt.coerceMulti fam n)] else []
        | none => [])
    ++ [DbAct.must PgStmt.createGix, DbAct.must PgStmt.analyzeTable]

/-- Run the `upload_shapefile_zip` post-load block. -/
def upload_finalize (fails : PgStmt → Bool) (fam : PyStr) (srid : Option Int) :
    Except PgStmt (List PgStmt) :=
  runDbActs fails (upload_finalize_acts fam srid)

/-- How a finalizer block working inside a single `engine.begin()` transaction
fails: a bare statement raising its own error, or a statement raising because
an earlier error already aborted the transaction (PostgreSQL rejects every
further statement of an aborted transaction). -/
inductive TxFailure : Type
  | stmtFailed (s : PgStmt)
  | abortedTx (s : PgStmt)
  deriving DecidableEq

/-- Run a sequence of statements inside one transaction, tracking the
PostgreSQL aborted state: a failing statement aborts the transaction even when
its Python exception is swallowed by `try/except`, and every later statement
of the same transaction raises (`InFailedSqlTransaction`) — again swallowed
for the wrapped ones, propagating for the bare ones. -/
def runDbActsTx (fails : PgStmt → Bool) :
    List DbAct → Bool → Except TxFailure (List PgStmt)
  | [], _ => .ok []
  | DbAct.must s :: rest, aborted =>
    if aborted then .error (TxFailure.abortedTx s)
    else if fails s then .error (TxFailure.stmtFailed s)
    else (runDbActsTx fails rest false).map (fun tr => s :: tr)
  | DbAct.tryIgnore s :: rest, aborted =>
    if aborted then runDbActsTx fails rest true
    else if fails s then runDbActsTx fails rest true
    else (runDbActsTx fails rest false).map (fun tr => s :: tr)

/-- The `to_postgis` post-load block with the transactional semantics of its
single `engine.begin()`. -/
def to_postgis_finalize_tx (fails : PgStmt → Bool) (renameNeeded : Bool) :
    Except TxFailure (List PgStmt) :=
  runDbActsTx fails (to_postgis_finalize_acts renameNeeded) false

/-- The `upload_shapefile_zip` post-load block with the transactional
semantics of its single `engine.begin()`. -/
def upload_finalize_tx (fails : PgStmt → Bool) (fam : PyStr) (srid : Option Int) :
    Except TxFailure (List PgStmt) :=
  runDbActsTx fails (upload_finalize_acts fam srid) false

/-- The SRID derivation of `upload_shapefile_zip`: the layer's EPSG code if
present, else a truthy `default_epsg`, else unknown. -/
def uploadSrid (epsg : Option Int) (default_epsg : Option Int) : Option Int :=
  match epsg with
  | some e => some e
  | none =>
    match default_epsg with
    | some d => if d != 0 then some d else none
    | none => none

/-- A row of `pg_policies`, as far as the existence check consults it. -/
structure PgPolicy where
  schemaname : PyStr
  tablename : PyStr
  policyname : PyStr
  deriving DecidableEq

/-- The policy name `f"read_{table}_anon"`. -/
def policyName (table : PyStr) : PyStr := "read_".toList ++ table ++ "_anon".toList

/-- The error message raised by `CREATE POLICY` on a duplicate name. -/
def dupPolicyErr : PyStr := "policy already exists".toList

/-- `CREATE POLICY`: raises if a policy of the same (schema, table, name)
already exists, otherwise records it. -/
def create_policy_stmt (ps : List PgPolicy) (pol : PgPolicy) :
    Except PyStr (List PgPolicy) :=
  if pol ∈ ps then .error dupPolicyErr else .ok (ps ++ [pol])

/-- The policy part of `create_views_and_policies`: query `pg_policies` for the
exact expected name and only create the policy when absent.  `ps` is the
current contents of `pg_policies`. -/
def apply_rls_policy (ps : List PgPolicy) (schema table : PyStr) :
    Except PyStr (List PgPolicy) :=
  let pol : PgPolicy := ⟨schema, table, policyName table⟩
  if pol ∈ ps then .ok ps else create_policy_stmt ps pol

/-- One iteration of `main`'s batch loop: a failing file appends a
`(file, error)` record, a successful one leaves the report unchanged. -/
def mainLoopStep (process : PyStr → Except PyStr Unit)
    (errors : List (PyStr × PyStr)) (shp : PyStr) : List (PyStr × PyStr) :=
  match process shp with
  | .ok _ => errors
  | .error e => errors ++ [(shp, e)]

/-- The error accumulation of `main`'s batch loop over all input files.
`process` models the whole per-file `try` body. -/
def mainLoopErrors (process : PyStr → Except PyStr Unit) (files : List PyStr) :
    List (PyStr × PyStr) :=
  files.foldl (mainLoopStep process) []

/-- The end-of-run emission: the error report is written only when at least one
file failed. -/
def mainErrorReport (process : PyStr → Except PyStr Unit) (files : List PyStr) :
    Option (List (PyStr × PyStr)) :=
  let errors := mainLoopErrors process files
  if errors = [] then none else some errors

/-- "Used or reserved" names during column collision resolution. -/
def UsedForbidden (used : PyStr → Prop) (s : PyStr) : Prop := used s ∨ s = geometryStr

/-- `cc` is the first acceptable candidate for `base` in the order
`base, base_2, base_3, …` relative to a set of used names. -/
def IsFirstFree (used : PyStr → Prop) (base cc : PyStr) : Prop :=
  (¬ UsedForbidden used base ∧ cc = base) ∨
  (UsedForbidden used base ∧ ∃ j, 2 ≤ j ∧ cc = sufCand base j ∧
    ¬ UsedForbidden used (sufCand base j) ∧
    ∀ k, 2 ≤ k → k < j → UsedForbidden used (sufCand base k))

/-! ### Character and slug lemmas -/

theorem isWordChar_usChar : isWordChar usChar = true := by decide

theorem subNonWord_allWord : ∀ (b : Bool) (s : PyStr), ∀ c ∈ subNonWord b s, isWordChar c = true := by
  intro b s
  induction s generalizing b with
  | nil => simp [subNonWord]
  | cons c cs ih =>
    intro d hd
    by_cases hc : isWordChar c
    · simp only [subNonWord, hc, if_true, List.mem_cons] at hd
      rcases hd with rfl | hd
      · exact hc
      · exact ih false d hd
    · simp only [subNonWord, hc, if_false, Bool.false_eq_true] at hd
      cases b with
      | true => exact ih true d hd
      | false =>
        rcases List.mem_cons.mp hd with rfl | hd
        · exact isWordChar_usChar
        · exact ih true d hd

theorem collapseUS_subset : ∀ (b : Bool) (s : PyStr), ∀ c ∈ collapseUS b s, c ∈ s := by
  intro b s
  induction s generalizing b with
  | nil => simp [collapseUS]
  | cons c cs ih =>
    intro d hd
    by_cases hc : c = usChar
    · subst hc
      simp only [collapseUS, if_true] at hd
      cases b with
      | true => exact List.mem_cons_of_mem _ (ih true d hd)
      | false =>
        rcases List.mem_cons.mp hd with rfl | hd
        · exact List.mem_cons_self _ _
        · exact List.mem_cons_of_mem _ (ih true d hd)
    · simp only [collapseUS, hc, if_false] at hd
      rcases List.mem_cons.mp hd with rfl | hd
      · exact List.mem_cons_self _ _
      · exact List.mem_cons_of_mem _ (ih false d hd)

theorem rstripUS_prefix_self : ∀ s : PyStr, rstripUS s <+: s := by
  intro s
  induction s with
  | nil => exact List.prefix_refl _
  | cons c cs ih =>
    cases h : rstripUS cs with
    | nil =>
      simp only [rstripUS, h, rstripAux]
      split
      · exact List.nil_prefix
      · exact (List.prefix_cons_inj _).mpr List.nil_prefix
    | cons r rs =>
      simp only [rstripUS, h, rstripAux]
      exact (List.prefix_cons_inj _).mpr (h ▸ ih)

theorem hasDoubleUS_cons (c : Char) (cs : PyStr) (hc : c ≠ usChar)
    (h : hasDoubleUS cs = false) : hasDoubleUS (c :: cs) = false := by
  cases cs with
  | nil => rfl
  | cons d rest =>
    simp only [hasDoubleUS, Bool.or_eq_false_iff, Bool.and_eq_false_iff]
    exact ⟨Or.inl (by simpa using hc), h⟩

theorem hasDoubleUS_cons_us (cs : PyStr) (hh : cs.head? ≠ some usChar)
    (h : hasDoubleUS cs = false) : hasDoubleUS (usChar :: cs) = false := by
  cases cs with
  | nil => rfl
  | cons d rest =>
    simp only [List.head?_cons, ne_eq, Option.some.injEq] at hh
    simp only [hasDoubleUS, Bool.or_eq_false_iff, Bool.and_eq_false_iff]
    exact ⟨Or.inr (by simpa using hh), h⟩

theorem hasDoubleUS_tail (c : Char) (cs : PyStr)
    (h : hasDoubleUS (c :: cs) = false) : hasDoubleUS cs = false := by
  cases cs with
  | nil => rfl
  | cons d rest =>
    simp only [hasDoubleUS, Bool.or_eq_false_iff] at h
    exact h.2

theorem collapseUS_true_head : ∀ cs : PyStr, (collapseUS true cs).head? ≠ some usChar := by
  intro cs
  induction cs with
  | nil => simp [collapseUS]
  | cons c rest ih =>
    by_cases hc : c = usChar
    · subst hc
      simpa [collapseUS] using ih
    · simp [collapseUS, hc]

theorem hasDoubleUS_collapseUS : ∀ (b : Bool) (s : PyStr), hasDoubleUS (collapseUS b s) = false := by
  intro b s
  induction s generalizing b with
  | nil => cases b <;> rfl
  | cons c cs ih =>
    by_cases hc : c = usChar
    · subst hc
      cases b with
      | true => simpa [collapseUS] using ih true
      | false =>
        simp only [collapseUS, if_true]
        exact hasDoubleUS_cons_us _ (collapseUS_true_head cs) (ih true)
    · simp only [collapseUS, hc, if_false]
      exact hasDoubleUS_cons c _ hc (ih false)

theorem hasDoubleUS_of_prefix : ∀ (p l : PyStr), p <+: l → hasDoubleUS l = false →
    hasDoubleUS p = false := by
  intro p
  induction p with
  | nil => intro l _ _; rfl
  | cons c p' ih =>
    intro l hp hl
    obtain ⟨t, rfl⟩ := hp
    cases p' with
    | nil => rfl
    | cons d p'' =>
      simp only [List.cons_append] at hl
      have h1 : hasDoubleUS (d :: (p'' ++ t)) = false := hasDoubleUS_tail _ _ hl
      have h2 : hasDoubleUS (d :: p'') = false := ih _ ⟨t, by simp⟩ h1
      simp only [hasDoubleUS, Bool.or_eq_false_iff] at hl ⊢
      exact ⟨hl.1, h2⟩

theorem hasDoubleUS_of_suffix : ∀ (p l : PyStr), p <:+ l → hasDoubleUS l = false →
    hasDoubleUS p = false := by
  intro p l
  induction l with
  | nil =>
    intro hp _
    rw [List.suffix_nil.mp hp]
    rfl
  | cons c cs ih =>
    intro hp hl
    rcases List.suffix_cons_iff.mp hp with rfl | hp'
    · exact hl
    · exact ih hp' (hasDoubleUS_tail _ _ hl)

theorem lstripUS_suffix (s : PyStr) : lstripUS s <:+ s := List.dropWhile_suffix _

theorem slugify_stage_take (s : PyStr) :
    slugify s <+: rstripUS (lstripUS (collapseUS false (subNonWord false (pyLower s)))) := by
  simp only [slugify]
  exact List.take_prefix _ _

theorem slugify_noDouble (s : PyStr) : hasDoubleUS (slugify s) = false := by
  have h1 : hasDoubleUS (collapseUS false (subNonWord false (pyLower s))) = false :=
    hasDoubleUS_collapseUS false _
  have h2 := hasDoubleUS_of_suffix _ _ (lstripUS_suffix (collapseUS false (subNonWord false (pyLower s)))) h1
  have h3 := hasDoubleUS_of_prefix _ _ (rstripUS_prefix_self (lstripUS (collapseUS false (subNonWord false (pyLower s))))) h2
  exact hasDoubleUS_of_prefix _ _ (slugify_stage_take s) h3

theorem slugify_allWord (s : PyStr) : ∀ c ∈ slugify s, isWordChar c = true := by
  intro c hc
  have h1 : c ∈ rstripUS (lstripUS (collapseUS false (subNonWord false (pyLower s)))) :=
    (slugify_stage_take s).sublist.subset hc
  have h2 : c ∈ lstripUS (collapseUS false (subNonWord false (pyLower s))) :=
    (rstripUS_prefix_self _).sublist.subset h1
  have h3 : c ∈ collapseUS false (subNonWord false (pyLower s)) :=
    (lstripUS_suffix _).sublist.subset h2
  have h4 : c ∈ subNonWord false (pyLower s) := collapseUS_subset false _ c h3
  exact subNonWord_allWord false _ c h4

theorem slugify_length_le (s : PyStr) : (slugify s).length ≤ PG_NAME_MAXLEN := by
  simp only [slugify]
  exact List.length_take_le _ _

/-- Claim C4: for every input string, `slugify`'s output matches
`^[a-z0-9_]{0,63}$` (every character lies in `[a-z0-9_]` and the length is at
most 63; the empty output is permitted, the `"col"` default being applied by
the caller) and contains no two consecutive underscores. -/
theorem slugify_charset (s : PyStr) :
    (∀ c ∈ slugify s, isWordChar c = true) ∧
    (slugify s).length ≤ PG_NAME_MAXLEN ∧
    hasDoubleUS (slugify s) = false :=
  ⟨slugify_allWord s, slugify_length_le s, slugify_noDouble s⟩

/-- Witness for C4 at a concrete mixed-case, accented, punctuated input. -/
theorem slugify_charset_witness :
    (∀ c ∈ slugify ("Héllo, World!".toList), isWordChar c = true) ∧
    (slugify ("Héllo, World!".toList)).length ≤ PG_NAME_MAXLEN ∧
    hasDoubleUS (slugify ("Héllo, World!".toList)) = false :=
  slugify_charset ("Héllo, World!".toList)

/-! ### Second-application identity lemmas for `slugify` -/

theorem pyLowerChar_word (c : Char) (h : isWordChar c = true) : pyLowerChar c = c := by
  simp only [isWordChar, Bool.or_eq_true, Bool.and_eq_true, decide_eq_true_eq,
    beq_iff_eq] at h
  unfold pyLowerChar
  rw [if_neg]
  omega

theorem pyLower_allWord (s : PyStr) (h : ∀ c ∈ s, isWordChar c = true) : pyLower s = s := by
  unfold pyLower
  rw [List.map_congr_left fun c hc => pyLowerChar_word c (h c hc)]
  exact List.map_id s

theorem subNonWord_allWord_id : ∀ (b : Bool) (s : PyStr), (∀ c ∈ s, isWordChar c = true) →
    subNonWord b s = s := by
  intro b s
  induction s generalizing b with
  | nil => intro _; rfl
  | cons c cs ih =>
    intro h
    have hc : isWordChar c = true := h c (List.mem_cons_self _ _)
    simp only [subNonWord, hc, if_true]
    rw [ih false fun d hd => h d (List.mem_cons_of_mem _ hd)]

theorem collapseUS_true_eq_false (cs : PyStr) (hh : cs.head? ≠ some usChar) :
    collapseUS true cs = collapseUS false cs := by
  cases cs with
  | nil => rfl
  | cons d rest =>
    simp only [List.head?_cons, ne_eq, Option.some.injEq] at hh
    simp [collapseUS, hh]

theorem collapseUS_noDouble_id : ∀ s : PyStr, hasDoubleUS s = false →
    collapseUS false s = s := by
  intro s
  induction s with
  | nil => intro _; rfl
  | cons c cs ih =>
    intro h
    by_cases hc : c = usChar
    · subst hc
      have hh : cs.head? ≠ some usChar := by
        cases cs with
        | nil => simp
        | cons d rest =>
          have hd : d ≠ usChar := by
            intro hdeq
            subst hdeq
            simp [hasDoubleUS] at h
          simp [hd]
      have hstep : collapseUS false (usChar :: cs) = usChar :: collapseUS true cs := by
        simp [collapseUS]
      rw [hstep, collapseUS_true_eq_false cs hh, ih (hasDoubleUS_tail _ _ h)]
    · simp only [collapseUS, hc, if_false]
      rw [ih (hasDoubleUS_tail _ _ h)]

theorem lstripUS_head_id (s : PyStr) (h : s.head? ≠ some usChar) : lstripUS s = s := by
  cases s with
  | nil => rfl
  | cons c cs =>
    simp only [List.head?_cons, ne_eq, Option.some.injEq] at h
    simp [lstripUS, List.dropWhile_cons, h]

theorem rstripUS_last_id : ∀ s : PyStr, s.getLast? ≠ some usChar → rstripUS s = s := by
  intro s
  induction s with
  | nil => intro _; rfl
  | cons c cs ih =>
    intro h
    cases cs with
    | nil =>
      simp only [List.getLast?_singleton, ne_eq, Option.some.injEq] at h
      simp [rstripUS, rstripAux, h]
    | cons d rest =>
      have hlast : (d :: rest).getLast? ≠ some usChar := by
        rwa [List.getLast?_cons_cons] at h
      have hr := ih hlast
      simp only [rstripUS] at hr ⊢
      rw [hr]
      rfl

theorem lstripUS_head : ∀ s : PyStr, (lstripUS s).head? ≠ some usChar := by
  intro s
  induction s with
  | nil => simp [lstripUS]
  | cons c cs ih =>
    by_cases hc : c = usChar
    · simpa [lstripUS, List.dropWhile_cons, hc] using ih
    · simp [lstripUS, List.dropWhile_cons, hc]

theorem prefix_head?_eq (p l : List Char) (hp : p <+: l) (hne : p ≠ []) :
    p.head? = l.head? := by
  obtain ⟨t, rfl⟩ := hp
  cases p with
  | nil => exact absurd rfl hne
  | cons c cs => rfl

theorem rstripUS_head (s : PyStr) (h : s.head? ≠ some usChar) :
    (rstripUS s).head? ≠ some usChar := by
  by_cases hne : rstripUS s = []
  · simp [hne]
  · rw [prefix_head?_eq _ _ (rstripUS_prefix_self s) hne]
    exact h

theorem take_head (n : Nat) (l : List Char) (h : l.head? ≠ some usChar) :
    (l.take n).head? ≠ some usChar := by
  by_cases hne : l.take n = []
  · simp [hne]
  · rw [prefix_head?_eq _ _ (List.take_prefix n l) hne]
    exact h

theorem slugify_head (s : PyStr) : (slugify s).head? ≠ some usChar := by
  simp only [slugify]
  exact take_head _ _ (rstripUS_head _ (lstripUS_head _))

/-- Claim C5, amended: `slugify` is idempotent on every input whose output does
not end with an underscore (truncation to 63 characters can expose a trailing
underscore that a second application would strip). -/
theorem slugify_idempotent_amended (s : PyStr)
    (h : (slugify s).getLast? ≠ some usChar) : slugify (slugify s) = slugify s := by
  have hword := slugify_allWord s
  have hnd := slugify_noDouble s
  have hhead := slugify_head s
  have hlen := slugify_length_le s
  conv_lhs => rw [slugify]
  rw [pyLower_allWord _ hword]
  rw [subNonWord_allWord_id _ _ hword]
  rw [collapseUS_noDouble_id _ hnd]
  rw [lstripUS_head_id _ hhead]
  rw [rstripUS_last_id _ h]
  exact List.take_of_length_le hlen

/-- Witness for the amended C5 at a concrete input. -/
theorem slugify_idempotent_amended_witness :
    (slugify ("Abc du Café!".toList)).getLast? ≠ some usChar ∧
    slugify (slugify ("Abc du Café!".toList)) = slugify ("Abc du Café!".toList) :=
  ⟨by decide, slugify_idempotent_amended ("Abc du Café!".toList) (by decide)⟩

/-- Counterexample to C5 as stated: a 64-character name whose slug is truncated
at position 63, exposing a trailing underscore; the second application strips
it, so `slugify` is not idempotent there. -/
theorem slugify_idempotent_cex :
    slugify (slugify (List.replicate 62 'a' ++ ['_', 'b']))
      ≠ slugify (List.replicate 62 'a' ++ ['_', 'b']) := by decide

/-! ### Geometry type classifier -/

theorem not_mem_replaceZ : ∀ s : PyStr, zChar ∉ replaceZ s := by
  intro s
  induction s with
  | nil => simp [replaceZ]
  | cons c cs ih =>
    by_cases hc : c = zChar
    · simpa [replaceZ, hc] using ih
    · simp [replaceZ, hc, ih]
      exact fun h => hc h.symm

theorem getLast?_ne_of_not_mem (l : List Char) (c : Char) (h : c ∉ l) :
    l.getLast? ≠ some c := by
  intro hl
  obtain ⟨hne, rfl⟩ := List.mem_getLast?_eq_getLast hl
  exact h (List.getLast_mem hne)

theorem normZSuffix_getLast (t : PyStr) : (normZSuffix t).getLast? ≠ some zChar := by
  unfold normZSuffix
  split
  · exact getLast?_ne_of_not_mem _ _ (not_mem_replaceZ _)
  · rename_i hcond
    simp only [Bool.or_eq_true, not_or] at hcond
    have h2 := hcond.2
    simp only [endsWithCh, beq_eq_false_iff_ne, ne_eq] at h2
    simpa using h2

theorem baseGeomTypes_getLast (types : List PyStr) :
    ∀ t ∈ baseGeomTypes types, t.getLast? ≠ some zChar := by
  intro t ht
  rw [baseGeomTypes, List.mem_dedup, List.mem_map] at ht
  obtain ⟨u, _, rfl⟩ := ht
  exact normZSuffix_getLast u

/-- Claim C1: `geom_type_for_column` implements the three-way policy exactly.
With `B` the set of distinct base geometry types (Z/ZM decorations dropped):
`B` empty → generic type, mixed flag true; `B = {t}` → exactly `t`, mixed flag
false; `|B| ≥ 2` → generic type, mixed flag true; and in every branch the
returned name ends in a `Z` qualifier iff the Z flag is set. -/
theorem geom_type_for_column_policy (types : List PyStr) (z : Bool) :
    (baseGeomTypes types = [] →
      geom_type_for_column types z
        = ((if z then "GEOMETRYZ".toList else "GEOMETRY".toList), true)) ∧
    (∀ t, baseGeomTypes types = [t] →
      geom_type_for_column types z = ((if z then t ++ [zChar] else t), false)) ∧
    (2 ≤ (baseGeomTypes types).length →
      geom_type_for_column types z
        = ((if z then "GEOMETRYZ".toList else "GEOMETRY".toList), true)) ∧
    (endsWithCh zChar (geom_type_for_column types z).1 = z) := by
  refine ⟨?_, ?_, ?_, ?_⟩
  · intro h
    simp [geom_type_for_column, h]
  · intro t h
    simp [geom_type_for_column, h]
  · intro h
    have h0 : ¬ (baseGeomTypes types).length = 0 := by omega
    have h1 : ¬ (baseGeomTypes types).length = 1 := by omega
    simp [geom_type_for_column, h0, h1]
  · unfold geom_type_for_column
    by_cases h0 : (baseGeomTypes types).length = 0
    · cases z <;> simp [h0, endsWithCh] <;> decide
    · by_cases h1 : (baseGeomTypes types).length = 1
      · obtain ⟨t, ht⟩ := List.length_eq_one.mp h1
        have htl : t.getLast? ≠ some zChar :=
          baseGeomTypes_getLast types t (ht ▸ List.mem_singleton_self t)
        cases z with
        | true => simp [h0, h1, ht, endsWithCh, List.getLast?_concat]
        | false =>
          simp only [h0, if_false, h1, if_true, ht, List.headI, if_true]
          simp [endsWithCh, beq_eq_false_iff_ne]
          simpa using htl
      · cases z <;> simp [h0, h1, endsWithCh] <;> decide

/-- Witness for C1: a single-base-type collection (one member Z-decorated) with
the Z flag set classifies as that type plus the Z qualifier, not mixed. -/
theorem geom_type_for_column_policy_witness :
    baseGeomTypes ["Polygon".toList, "PolygonZ".toList] = ["POLYGON".toList] ∧
    geom_type_for_column ["Polygon".toList, "PolygonZ".toList] true
      = ("POLYGON".toList ++ [zChar], false) :=
  ⟨by decide, by
    have h := (geom_type_for_column_policy ["Polygon".toList, "PolygonZ".toList] true).2.1
    simpa using h ("POLYGON".toList) (by decide)⟩

/-! ### Upload-path geometry family classifier -/

theorem geom_family_any_iff (types : List PyStr) (p : PyStr → Bool) :
    ((types.map pyUpper).dedup.any p = true) ↔ ∃ t ∈ types, p (pyUpper t) = true := by
  rw [List.any_eq_true]
  constructor
  · rintro ⟨x, hx, hp⟩
    rw [List.mem_dedup, List.mem_map] at hx
    obtain ⟨t, ht, rfl⟩ := hx
    exact ⟨t, ht, hp⟩
  · rintro ⟨t, ht, hp⟩
    exact ⟨pyUpper t, List.mem_dedup.mpr (List.mem_map_of_mem _ ht), hp⟩

/-- Claim C10: `_geom_family` applies a fixed priority (polygons over lines
over points over the generic fallback), not a mixed-flag policy: any polygon
variant present forces `MULTIPOLYGON` regardless of other types; otherwise any
line variant forces `MULTILINESTRING`; otherwise any point variant forces
`MULTIPOINT`; otherwise (including the empty collection) `GEOMETRY`. -/
theorem geom_family_priority (types : List PyStr) :
    ((∃ t ∈ types, pyUpper t = "POLYGON".toList ∨ pyUpper t = "MULTIPOLYGON".toList) →
      geom_family types = "MULTIPOLYGON".toList) ∧
    ((¬ ∃ t ∈ types, pyUpper t = "POLYGON".toList ∨ pyUpper t = "MULTIPOLYGON".toList) →
      (∃ t ∈ types, pyUpper t = "LINESTRING".toList ∨ pyUpper t = "MULTILINESTRING".toList) →
      geom_family types = "MULTILINESTRING".toList) ∧
    ((¬ ∃ t ∈ types, pyUpper t = "POLYGON".toList ∨ pyUpper t = "MULTIPOLYGON".toList) →
      (¬ ∃ t ∈ types, pyUpper t = "LINESTRING".toList ∨ pyUpper t = "MULTILINESTRING".toList) →
      (∃ t ∈ types, pyUpper t = "POINT".toList ∨ pyUpper t = "MULTIPOINT".toList) →
      geom_family types = "MULTIPOINT".toList) ∧
    ((¬ ∃ t ∈ types, pyUpper t = "POLYGON".toList ∨ pyUpper t = "MULTIPOLYGON".toList) →
      (¬ ∃ t ∈ types, pyUpper t = "LINESTRING".toList ∨ pyUpper t = "MULTILINESTRING".toList) →
      (¬ ∃ t ∈ types, pyUpper t = "POINT".toList ∨ pyUpper t = "MULTIPOINT".toList) →
      geom_family types = "GEOMETRY".toList) := by
  have hconv : ∀ (a b : PyStr), ∀ t : PyStr,
      ((pyUpper t == a || pyUpper t == b) = true) ↔ (pyUpper t = a ∨ pyUpper t = b) := by
    intro a b t
    simp
  refine ⟨?_, ?_, ?_, ?_⟩
  · intro h
    have : (types.map pyUpper).dedup.any
        (fun t => t == "POLYGON".toList || t == "MULTIPOLYGON".toList) = true := by
      rw [geom_family_any_iff]
      obtain ⟨t, ht, hp⟩ := h
      exact ⟨t, ht, (hconv _ _ t).mpr hp⟩
    simp only [geom_family]
    rw [this]
    rfl
  · intro h1 h2
    have e1 : (types.map pyUpper).dedup.any
        (fun t => t == "POLYGON".toList || t == "MULTIPOLYGON".toList) = false := by
      rw [Bool.eq_false_iff, ne_eq, geom_family_any_iff]
      intro hc
      exact h1 (by obtain ⟨t, ht, hp⟩ := hc; exact ⟨t, ht, (hconv _ _ t).mp hp⟩)
    have e2 : (types.map pyUpper).dedup.any
        (fun t => t == "LINESTRING".toList || t == "MULTILINESTRING".toList) = true := by
      rw [geom_family_any_iff]
      obtain ⟨t, ht, hp⟩ := h2
      exact ⟨t, ht, (hconv _ _ t).mpr hp⟩
    simp only [geom_family]
    rw [e1, e2]
    rfl
  · intro h1 h2 h3
    have e1 : (types.map pyUpper).dedup.any
        (fun t => t == "POLYGON".toList || t == "MULTIPOLYGON".toList) = false := by
      rw [Bool.eq_false_iff, ne_eq, geom_family_any_iff]
      intro hc
      exact h1 (by obtain ⟨t, ht, hp⟩ := hc; exact ⟨t, ht, (hconv _ _ t).mp hp⟩)
    have e2 : (types.map pyUpper).dedup.any
        (fun t => t == "LINESTRING".toList || t == "MULTILINESTRING".toList) = false := by
      rw [Bool.eq_false_iff, ne_eq, geom_family_any_iff]
      intro hc
      exact h2 (by obtain ⟨t, ht, hp⟩ := hc; exact ⟨t, ht, (hconv _ _ t).mp hp⟩)
    have e3 : (types.map pyUpper).dedup.any
        (fun t => t == "POINT".toList || t == "MULTIPOINT".toList) = true := by
      rw [geom_family_any_iff]
      obtain ⟨t, ht, hp⟩ := h3
      exact ⟨t, ht, (hconv _ _ t).mpr hp⟩
    simp only [geom_family]
    rw [e1, e2, e3]
    rfl
  · intro h1 h2 h3
    have e1 : (types.map pyUpper).dedup.any
        (fun t => t == "POLYGON".toList || t == "MULTIPOLYGON".toList) = false := by
      rw [Bool.eq_false_iff, ne_eq, geom_family_any_iff]
      intro hc
      exact h1 (by obtain ⟨t, ht, hp⟩ := hc; exact ⟨t, ht, (hconv _ _ t).mp hp⟩)
    have e2 : (types.map pyUpper).dedup.any
        (fun t => t == "LINESTRING".toList || t == "MULTILINESTRING".toList) = false := by
      rw [Bool.eq_false_iff, ne_eq, geom_family_any_iff]
      intro hc
      exact h2 (by obtain ⟨t, ht, hp⟩ := hc; exact ⟨t, ht, (hconv _ _ t).mp hp⟩)
    have e3 : (types.map pyUpper).dedup.any
        (fun t => t == "POINT".toList || t == "MULTIPOINT".toList) = false := by
      rw [Bool.eq_false_iff, ne_eq, geom_family_any_iff]
      intro hc
      exact h3 (by obtain ⟨t, ht, hp⟩ := hc; exact ⟨t, ht, (hconv _ _ t).mp hp⟩)
    simp only [geom_family]
    rw [e1, e2, e3]
    rfl

/-- Witness for C10: polygons mixed with points and lines still classify as
`MULTIPOLYGON`. -/
theorem geom_family_priority_witness :
    geom_family ["Point".toList, "LineString".toList, "Polygon".toList]
      = "MULTIPOLYGON".toList :=
  (geom_family_priority ["Point".toList, "LineString".toList, "Polygon".toList]).1
    ⟨"Polygon".toList, by decide, by decide⟩

/-! ### Access-policy idempotence -/

/-- Claim C9: the policy step checks `pg_policies` for the exact expected name
before creating; a second run on the resulting state neither raises nor adds a
second policy of that name, and the policy count ends at
`max (previous count) 1`. -/
theorem rls_policy_idempotent (ps : List PgPolicy) (schema table : PyStr) :
    ∃ ps2, apply_rls_policy ps schema table = Except.ok ps2 ∧
      (⟨schema, table, policyName table⟩ : PgPolicy) ∈ ps2 ∧
      ((⟨schema, table, policyName table⟩ : PgPolicy) ∈ ps → ps2 = ps) ∧
      apply_rls_policy ps2 schema table = Except.ok ps2 ∧
      List.count (⟨schema, table, policyName table⟩ : PgPolicy) ps2
        = max (List.count (⟨schema, table, policyName table⟩ : PgPolicy) ps) 1 := by
  by_cases hmem : (⟨schema, table, policyName table⟩ : PgPolicy) ∈ ps
  · refine ⟨ps, ?_, hmem, fun _ => rfl, ?_, ?_⟩
    · simp [apply_rls_policy, hmem]
    · simp [apply_rls_policy, hmem]
    · have : 1 ≤ List.count (⟨schema, table, policyName table⟩ : PgPolicy) ps :=
        List.count_pos_iff.mpr hmem
      omega
  · have hmem2 : (⟨schema, table, policyName table⟩ : PgPolicy)
        ∈ ps ++ [(⟨schema, table, policyName table⟩ : PgPolicy)] := by
      simp
    refine ⟨ps ++ [⟨schema, table, policyName table⟩], ?_, hmem2, fun h => absurd h hmem, ?_, ?_⟩
    · simp [apply_rls_policy, create_policy_stmt, hmem]
    · simp [apply_rls_policy, hmem2]
    · rw [List.count_append]
      rw [List.count_eq_zero_of_not_mem hmem]
      simp

/-- Witness for C9 on an initially empty `pg_policies`. -/
theorem rls_policy_idempotent_witness :
    ∃ ps2, apply_rls_policy [] ("public".toList) ("roads".toList) = Except.ok ps2 ∧
      (⟨"public".toList, "roads".toList, policyName ("roads".toList)⟩ : PgPolicy) ∈ ps2 ∧
      ((⟨"public".toList, "roads".toList, policyName ("roads".toList)⟩ : PgPolicy) ∈ ([] : List PgPolicy) → ps2 = []) ∧
      apply_rls_policy ps2 ("public".toList) ("roads".toList) = Except.ok ps2 ∧
      List.count (⟨"public".toList, "roads".toList, policyName ("roads".toList)⟩ : PgPolicy) ps2
        = max (List.count (⟨"public".toList, "roads".toList, policyName ("roads".toList)⟩ : PgPolicy) ([] : List PgPolicy)) 1 :=
  rls_policy_idempotent [] ("public".toList) ("roads".toList)

/-! ### Batch error handling -/

theorem mainLoop_foldl_spec (process : PyStr → Except PyStr Unit) :
    ∀ (files : List PyStr) (init : List (PyStr × PyStr)),
      files.foldl (mainLoopStep process) init
        = init ++ files.filterMap (fun f =>
            match process f with
            | Except.ok _ => none
            | Except.error e => some (f, e)) := by
  intro files
  induction files with
  | nil => intro init; simp
  | cons f rest ih =>
    intro init
    rw [List.foldl_cons, List.filterMap_cons, ih]
    cases hp : process f with
    | ok u => simp [mainLoopStep, hp]
    | error e => simp [mainLoopStep, hp]

/-- Claim C8: in batch mode every failing file contributes exactly one
`(path, message)` record, in input order, successes contribute none, the loop
runs to the end of the file list, and the report is emitted at the end iff at
least one file failed. -/
theorem main_batch_error_report (process : PyStr → Except PyStr Unit) (files : List PyStr) :
    mainLoopErrors process files
      = files.filterMap (fun f =>
          match process f with
          | Except.ok _ => none
          | Except.error e => some (f, e)) ∧
    (∀ f e, f ∈ files → process f = Except.error e →
      (f, e) ∈ mainLoopErrors process files) ∧
    (mainLoopErrors process files ≠ [] →
      mainErrorReport process files = some (mainLoopErrors process files)) ∧
    (mainLoopErrors process files = [] → mainErrorReport process files = none) := by
  have hspec : mainLoopErrors process files
      = files.filterMap (fun f =>
          match process f with
          | Except.ok _ => none
          | Except.error e => some (f, e)) := by
    rw [mainLoopErrors, mainLoop_foldl_spec]
    simp
  refine ⟨hspec, ?_, ?_, ?_⟩
  · intro f e hf hp
    rw [hspec, List.mem_filterMap]
    exact ⟨f, hf, by rw [hp]⟩
  · intro hne
    simp [mainErrorReport, hne]
  · intro he
    simp [mainErrorReport, he]

/-- Witness for C8: two files, the first failing, the second succeeding. -/
theorem main_batch_error_report_witness :
    (("a.shp".toList, "boom".toList)
        ∈ mainLoopErrors
            (fun f => if f = "a.shp".toList then Except.error ("boom".toList) else Except.ok ())
            ["a.shp".toList, "b.shp".toList]) ∧
    mainErrorReport
        (fun f => if f = "a.shp".toList then Except.error ("boom".toList) else Except.ok ())
        ["a.shp".toList, "b.shp".toList]
      = some [("a.shp".toList, "boom".toList)] := by
  have h := main_batch_error_report
    (fun f => if f = "a.shp".toList then Except.error ("boom".toList) else Except.ok ())
    ["a.shp".toList, "b.shp".toList]
  refine ⟨h.2.1 ("a.shp".toList) ("boom".toList) (by decide) (by simp), ?_⟩
  have h3 := h.2.2.1 (by rw [h.1]; decide)
  rw [h3, h.1]
  decide

/-! ### Post-load finalizers: coercion condition and swallowed PK failure -/

theorem uploadSrid_ne_zero (epsg default_epsg : Option Int) (n : Int)
    (hepsg : ∀ e, epsg = some e → e ≠ 0)
    (h : uploadSrid epsg default_epsg = some n) : n ≠ 0 := by
  cases epsg with
  | some e =>
    simp only [uploadSrid, Option.some.injEq] at h
    exact h ▸ hepsg e rfl
  | none =>
    cases default_epsg with
    | none => simp [uploadSrid] at h
    | some d =>
      simp only [uploadSrid] at h
      by_cases hd : d = 0
      · simp [hd] at h
      · have : (d != 0) = true := by simpa using hd
        rw [this, if_pos rfl] at h
        cases h
        exact hd

/-- Claim C6: in the upload path, the `ST_Multi(ST_Force2D(...))` coercion
statement is executed iff the derived SRID is known (non-null) and the
classified family is one of the three multi-geometry families; with an unknown
SRID it is skipped.  `hepsg` records that a resolvable CRS maps to a genuine
(nonzero) EPSG code. -/
theorem upload_coercion_iff (epsg default_epsg : Option Int) (fam : PyStr)
    (hepsg : ∀ e, epsg = some e → e ≠ 0) :
    ∃ tr, upload_finalize (fun _ => false) fam (uploadSrid epsg default_epsg)
        = Except.ok tr ∧
      (∀ n : Int, PgStmt.coerceMulti fam n ∈ tr ↔
        (uploadSrid epsg default_epsg = some n ∧ famIsMulti fam = true)) ∧
      (uploadSrid epsg default_epsg = none → ∀ n : Int, PgStmt.coerceMulti fam n ∉ tr) := by
  cases hs : uploadSrid epsg default_epsg with
  | none =>
    refine ⟨[PgStmt.addIdColumn, PgStmt.addPrimaryKey, PgStmt.createGix, PgStmt.analyzeTable],
      ?_, ?_, ?_⟩
    · simp [upload_finalize, upload_finalize_acts, runDbActs, Except.map]
    · intro n
      simp
    · intro _ n
      simp
  | some m =>
    have hm : m ≠ 0 := uploadSrid_ne_zero epsg default_epsg m hepsg hs
    have hmb : (m != 0) = true := by simpa using hm
    by_cases hf : famIsMulti fam = true
    · refine ⟨[PgStmt.addIdColumn, PgStmt.addPrimaryKey, PgStmt.coerceMulti fam m,
        PgStmt.createGix, PgStmt.analyzeTable], ?_, ?_, ?_⟩
      · simp [upload_finalize, upload_finalize_acts, runDbActs, Except.map, hmb, hf]
      · intro n
        simp only [List.mem_cons, List.mem_singleton]
        constructor
        · rintro (h | h | h | h | h) <;> first
            | (cases h; exact ⟨rfl, hf⟩)
            | (exact absurd h (by simp))
        · rintro ⟨hn, _⟩
          cases hn
          simp
      · intro hnone
        exact Option.noConfusion hnone
    · have hfb : famIsMulti fam = false := by simpa using hf
      refine ⟨[PgStmt.addIdColumn, PgStmt.addPrimaryKey, PgStmt.createGix, PgStmt.analyzeTable],
        ?_, ?_, ?_⟩
      · simp [upload_finalize, upload_finalize_acts, runDbActs, Except.map, hmb, hfb]
      · intro n
        simp [hf]
      · intro hnone
        exact Option.noConfusion hnone

/-- Witness for C6: SRID 2154 with a `MULTIPOLYGON` family executes the
coercion; the derivation hypothesis holds since 2154 is nonzero. -/
theorem upload_coercion_iff_witness :
    ∃ tr, upload_finalize (fun _ => false) ("MULTIPOLYGON".toList)
        (uploadSrid (some 2154) none) = Except.ok tr ∧
      (∀ n : Int, PgStmt.coerceMulti ("MULTIPOLYGON".toList) n ∈ tr ↔
        (uploadSrid (some 2154) none = some n
          ∧ famIsMulti ("MULTIPOLYGON".toList) = true)) ∧
      (uploadSrid (some 2154) none = none →
        ∀ n : Int, PgStmt.coerceMulti ("MULTIPOLYGON".toList) n ∉ tr) :=
  upload_coercion_iff (some 2154) none ("MULTIPOLYGON".toList)
    (fun e he => by cases he; decide)

theorem runDbActsTx_noFail : ∀ acts : List DbAct,
    runDbActsTx (fun _ => false) acts false
      = (runDbActs (fun _ => false) acts).mapError TxFailure.stmtFailed := by
  intro acts
  induction acts with
  | nil => rfl
  | cons a rest ih =>
    cases a with
    | must s =>
      have h1 : runDbActsTx (fun _ => false) (DbAct.must s :: rest) false
          = (runDbActsTx (fun _ => false) rest false).map (fun tr => s :: tr) := by
        simp [runDbActsTx]
      have h2 : runDbActs (fun _ => false) (DbAct.must s :: rest)
          = (runDbActs (fun _ => false) rest).map (fun tr => s :: tr) := by
        simp [runDbActs]
      rw [h1, h2, ih]
      cases runDbActs (fun _ => false) rest <;> rfl
    | tryIgnore s =>
      have h1 : runDbActsTx (fun _ => false) (DbAct.tryIgnore s :: rest) false
          = (runDbActsTx (fun _ => false) rest false).map (fun tr => s :: tr) := by
        simp [runDbActsTx]
      have h2 : runDbActs (fun _ => false) (DbAct.tryIgnore s :: rest)
          = (runDbActs (fun _ => false) rest).map (fun tr => s :: tr) := by
        simp [runDbActs]
      rw [h1, h2, ih]
      cases runDbActs (fun _ => false) rest <;> rfl

/-- Claim C7 (code bug): the `ADD CONSTRAINT ... PRIMARY KEY` attempt of both
post-load finalizers runs inside the same `engine.begin()` transaction as the
rest of the block, so when that statement actually fails its own exception is
swallowed by the bare `except` (nothing is logged), but the transaction is
left aborted and the very next bare statement raises uncaught: the finalizer
errors out instead of continuing.  Evaluated at the oracle failing exactly the
primary-key statement, on the ingestion finalizer with and without the rename
step and on the upload finalizer with and without a known SRID: each run ends
in an aborted-transaction error at the statement after the attempt (never in
the primary-key statement's own error, which is the swallowed one). -/
theorem pk_failure_aborts_transaction :
    to_postgis_finalize_tx (fun s => decide (s = PgStmt.addPrimaryKey)) false
      = Except.error (TxFailure.abortedTx PgStmt.analyzeTable) ∧
    to_postgis_finalize_tx (fun s => decide (s = PgStmt.addPrimaryKey)) true
      = Except.error (TxFailure.abortedTx PgStmt.analyzeTable) ∧
    upload_finalize_tx (fun s => decide (s = PgStmt.addPrimaryKey))
        ("MULTIPOLYGON".toList) (some 2154)
      = Except.error
          (TxFailure.abortedTx (PgStmt.coerceMulti ("MULTIPOLYGON".toList) 2154)) ∧
    upload_finalize_tx (fun s => decide (s = PgStmt.addPrimaryKey))
        ("MULTIPOLYGON".toList) none
      = Except.error (TxFailure.abortedTx PgStmt.createGix) :=
  ⟨rfl, rfl, rfl, rfl⟩

/-! ### Encoding resolver -/

theorem goReadTrials_cons_error {G : Type} (rf : Option PyStr → Except PyStr G)
    (trials : List PyStr) (enc : PyStr) (rest : List PyStr) (last : Option PyStr)
    (m : PyStr) (h : rf (some enc) = Except.error m) :
    goReadTrials rf trials (enc :: rest) last = goReadTrials rf trials rest (some m) := by
  simp [goReadTrials, h]

theorem goReadTrials_cons_ok {G : Type} (rf : Option PyStr → Except PyStr G)
    (trials : List PyStr) (enc : PyStr) (rest : List PyStr) (last : Option PyStr)
    (g : G) (h : rf (some enc) = Except.ok g) :
    goReadTrials rf trials (enc :: rest) last = Except.ok g := by
  simp [goReadTrials, h]

theorem goReadTrials_nil_error {G : Type} (rf : Option PyStr → Except PyStr G)
    (trials : List PyStr) (last : Option PyStr) (m : PyStr)
    (h : rf none = Except.error m) :
    goReadTrials rf trials [] last = Except.error (readErrMsg trials last) := by
  simp [goReadTrials, h]

theorem goReadTrials_nil_ok {G : Type} (rf : Option PyStr → Except PyStr G)
    (trials : List PyStr) (last : Option PyStr) (g : G)
    (h : rf none = Except.ok g) :
    goReadTrials rf trials [] last = Except.ok g := by
  simp [goReadTrials, h]

theorem goReadTrials_first_ok {G : Type} (rf : Option PyStr → Except PyStr G)
    (trials : List PyStr) :
    ∀ (pre : List PyStr) (enc : PyStr) (post : List PyStr) (last : Option PyStr) (g : G),
      (∀ e ∈ pre, ∃ m, rf (some e) = Except.error m) →
      rf (some enc) = Except.ok g →
      goReadTrials rf trials (pre ++ enc :: post) last = Except.ok g := by
  intro pre
  induction pre with
  | nil =>
    intro enc post last g _ hok
    simpa using goReadTrials_cons_ok rf trials enc post last g hok
  | cons p pre' ih =>
    intro enc post last g hfail hok
    obtain ⟨m, hm⟩ := hfail p (List.mem_cons_self _ _)
    rw [List.cons_append, goReadTrials_cons_error rf trials p _ last m hm]
    exact ih enc post (some m) g (fun e he => hfail e (List.mem_cons_of_mem _ he)) hok

theorem goRobust_allfail {G : Type} (rf : Option PyStr → Except PyStr G) :
    ∀ ts : List PyStr, (∀ e ∈ ts, ∃ m, rf (some e) = Except.error m) →
      goRobust rf ts = rf none := by
  intro ts
  induction ts with
  | nil => intro _; rfl
  | cons e rest ih =>
    intro h
    obtain ⟨m, hm⟩ := h e (List.mem_cons_self _ _)
    simp only [goRobust, hm]
    exact ih fun e' he' => h e' (List.mem_cons_of_mem _ he')

theorem decomp_append_left (w s pat : PyStr) (h : ∃ u v, s = u ++ pat ++ v) :
    ∃ u v, w ++ s = u ++ pat ++ v := by
  obtain ⟨u, v, rfl⟩ := h
  exact ⟨w ++ u, v, by simp⟩

theorem decomp_append_right (s w pat : PyStr) (h : ∃ u v, s = u ++ pat ++ v) :
    ∃ u v, s ++ w = u ++ pat ++ v := by
  obtain ⟨u, v, rfl⟩ := h
  exact ⟨u, v ++ w, by simp⟩

theorem commaSepJoin_decomp : ∀ (l : List PyStr) (x : PyStr), x ∈ l →
    ∃ u v, commaSepJoin l = u ++ x ++ v := by
  intro l
  induction l with
  | nil => intro x hx; exact absurd hx (List.not_mem_nil x)
  | cons x0 rest ih =>
    intro x hx
    cases rest with
    | nil =>
      rw [List.mem_singleton.mp hx]
      exact ⟨[], [], by simp [commaSepJoin]⟩
    | cons y rest' =>
      rcases List.mem_cons.mp hx with rfl | hx'
      · exact ⟨[], ", ".toList ++ commaSepJoin (y :: rest'), by simp [commaSepJoin]⟩
      · have hd := ih x hx'
        have : commaSepJoin (x0 :: y :: rest')
            = (x0 ++ ", ".toList) ++ commaSepJoin (y :: rest') := by
          simp [commaSepJoin]
        rw [this]
        exact decomp_append_left _ _ _ hd

theorem pyReprStrList_decomp (l : List PyStr) (x : PyStr) (hx : x ∈ l) :
    ∃ u v, pyReprStrList l = u ++ x ++ v := by
  have hq : quoteEnc x ∈ l.map quoteEnc := List.mem_map_of_mem _ hx
  obtain ⟨u, v, hd⟩ := commaSepJoin_decomp (l.map quoteEnc) (quoteEnc x) hq
  refine ⟨'[' :: u ++ [squoteChar], [squoteChar] ++ v ++ [']'], ?_⟩
  rw [pyReprStrList, hd, quoteEnc]
  simp

theorem readErrMsg_decomp_enc (trials : List PyStr) (last : Option PyStr)
    (e : PyStr) (he : e ∈ trials) :
    ∃ u v, readErrMsg trials last = u ++ e ++ v := by
  rw [readErrMsg.eq_def]
  apply decomp_append_right
  apply decomp_append_right
  apply decomp_append_left
  exact pyReprStrList_decomp trials e he

theorem readErrMsg_decomp_last (trials : List PyStr) (m : PyStr) :
    ∃ u v, readErrMsg trials (some m) = u ++ m ++ v := by
  refine ⟨"Impossible de lire le SHP (encodings testés: ".toList ++ pyReprStrList trials
    ++ "). Dernière erreur: ".toList, [], ?_⟩
  rw [readErrMsg.eq_def]
  simp

theorem containsSub_of_decomp (s pat : PyStr) (h : ∃ u v, s = u ++ pat ++ v) :
    containsSub s pat = true := by
  obtain ⟨u, v, rfl⟩ := h
  rw [containsSub, List.any_eq_true]
  refine ⟨pat ++ v, ?_, ?_⟩
  · rw [List.mem_tails]
    exact ⟨u, by simp⟩
  · rw [List.isPrefixOf_iff_prefix]
    exact List.prefix_append pat v

theorem goReadTrials_allfail_concat {G : Type} (rf : Option PyStr → Except PyStr G)
    (trials : List PyStr) :
    ∀ (ts : List PyStr) (last : Option PyStr) (m0 : PyStr) (e0 : PyStr),
      (∀ e ∈ ts, ∃ m, rf (some e) = Except.error m) →
      rf (some e0) = Except.error m0 →
      goReadTrials rf trials (ts ++ [e0]) last = goReadTrials rf trials [] (some m0) := by
  intro ts
  induction ts with
  | nil =>
    intro last m0 e0 _ h0
    simpa using goReadTrials_cons_error rf trials e0 [] last m0 h0
  | cons p ts' ih =>
    intro last m0 e0 hfail h0
    obtain ⟨m, hm⟩ := hfail p (List.mem_cons_self _ _)
    rw [List.cons_append, goReadTrials_cons_error rf trials p _ last m hm]
    exact ih (some m) m0 e0 (fun e he => hfail e (List.mem_cons_of_mem _ he)) h0

/-- Counterexample to C2 as stated: with every read attempt failing (message
`"boom"`), the resolver's final error interpolates only the trial list and the
last error — the file path `"f.shp"` does not occur in the message. -/
theorem read_encodings_cex :
    read_gdf_try_encodings (G := Unit) (fun _ _ => Except.error ("boom".toList))
        ("f.shp".toList) none
      = Except.error (readErrMsg fallbackEncodings (some ("boom".toList))) ∧
    containsSub (readErrMsg fallbackEncodings (some ("boom".toList)))
        ("f.shp".toList) = false :=
  ⟨rfl, by decide⟩

/-- Claim C2, amended: both resolvers try the hint (when present), then the
fallbacks in order, then one auto-detect attempt, returning the first success;
on total failure the upload-path resolver raises a read error identifying all
attempted encodings and the last per-encoding error (but not the file path),
while the batch-path resolver propagates the auto-detect outcome unchanged. -/
theorem read_encodings_amended {G : Type}
    (readFile : PyStr → Option PyStr → Except PyStr G) (path : PyStr)
    (enc_hint : Option PyStr) :
    (∀ (pre : List PyStr) (enc : PyStr) (post : List PyStr) (g : G),
      hintTrials enc_hint = pre ++ enc :: post →
      (∀ e ∈ pre, ∃ m, readFile path (some e) = Except.error m) →
      readFile path (some enc) = Except.ok g →
      read_gdf_try_encodings readFile path enc_hint = Except.ok g) ∧
    ((∀ e ∈ hintTrials enc_hint, ∃ m, readFile path (some e) = Except.error m) →
      ∀ g : G, readFile path none = Except.ok g →
        read_gdf_try_encodings readFile path enc_hint = Except.ok g) ∧
    ((∀ e ∈ hintTrials enc_hint, ∃ m, readFile path (some e) = Except.error m) →
      ∀ mcp mauto, readFile path (some cp1252Str) = Except.error mcp →
        readFile path none = Except.error mauto →
        read_gdf_try_encodings readFile path enc_hint
          = Except.error (readErrMsg (hintTrials enc_hint) (some mcp)) ∧
        (∀ e ∈ hintTrials enc_hint,
          containsSub (readErrMsg (hintTrials enc_hint) (some mcp)) e = true) ∧
        containsSub (readErrMsg (hintTrials enc_hint) (some mcp)) mcp = true) ∧
    (∀ cpg : Option PyStr,
      (∀ e ∈ robustTrials (cpgHint cpg), ∃ m, readFile path (some e) = Except.error m) →
      read_shp_robust readFile path cpg = readFile path none) := by
  have hsplit : hintTrials enc_hint
      = (hintPart enc_hint ++ [utf8Str, latin1Str]) ++ [cp1252Str] := by
    cases enc_hint <;> simp [hintTrials, hintPart, fallbackEncodings]
  refine ⟨?_, ?_, ?_, ?_⟩
  · intro pre enc post g hT hfail hok
    rw [read_gdf_try_encodings, hT]
    exact goReadTrials_first_ok (readFile path) _ pre enc post none g hfail hok
  · intro hfail g hauto
    rw [read_gdf_try_encodings]
    have hcp : ∃ m, readFile path (some cp1252Str) = Except.error m := by
      apply hfail
      rw [hsplit]
      simp
    obtain ⟨mcp, hmcp⟩ := hcp
    have hrest : ∀ e ∈ hintPart enc_hint ++ [utf8Str, latin1Str],
        ∃ m, readFile path (some e) = Except.error m := by
      intro e he
      apply hfail
      rw [hsplit]
      exact List.mem_append_left _ he
    have key := goReadTrials_allfail_concat (readFile path) (hintTrials enc_hint)
      (hintPart enc_hint ++ [utf8Str, latin1Str]) none mcp cp1252Str hrest hmcp
    rw [← hsplit] at key
    rw [key]
    exact goReadTrials_nil_ok _ _ _ g hauto
  · intro hfail mcp mauto hmcp hauto
    refine ⟨?_, ?_, ?_⟩
    · rw [read_gdf_try_encodings]
      have hrest : ∀ e ∈ hintPart enc_hint ++ [utf8Str, latin1Str],
          ∃ m, readFile path (some e) = Except.error m := by
        intro e he
        apply hfail
        rw [hsplit]
        exact List.mem_append_left _ he
      have key := goReadTrials_allfail_concat (readFile path) (hintTrials enc_hint)
        (hintPart enc_hint ++ [utf8Str, latin1Str]) none mcp cp1252Str hrest hmcp
      rw [← hsplit] at key
      rw [key]
      exact goReadTrials_nil_error _ _ _ mauto hauto
    · intro e he
      exact containsSub_of_decomp _ _ (readErrMsg_decomp_enc _ _ e he)
    · exact containsSub_of_decomp _ _ (readErrMsg_decomp_last _ mcp)
  · intro cpg hfail
    rw [read_shp_robust]
    exact goRobust_allfail (readFile path) _ hfail

/-- Witness for the amended C2: a `"CP850"`-style hint, every attempt failing
with `"boom"`; the final error names the hint, all three fallbacks and the last
error. -/
theorem read_encodings_amended_witness :
    read_gdf_try_encodings (G := Unit) (fun _ _ => Except.error ("boom".toList))
        ("f.shp".toList) (some ("cp850".toList))
      = Except.error (readErrMsg (hintTrials (some ("cp850".toList)))
          (some ("boom".toList))) ∧
    (∀ e ∈ hintTrials (some ("cp850".toList)),
      containsSub (readErrMsg (hintTrials (some ("cp850".toList)))
        (some ("boom".toList))) e = true) ∧
    containsSub (readErrMsg (hintTrials (some ("cp850".toList)))
        (some ("boom".toList))) ("boom".toList) = true :=
  (read_encodings_amended (G := Unit) (fun _ _ => Except.error ("boom".toList))
      ("f.shp".toList) (some ("cp850".toList))).2.2.1
    (fun _ _ => ⟨"boom".toList, rfl⟩) ("boom".toList) ("boom".toList) rfl rfl

/-! ### Column sanitizer: suffix candidates are injective -/

theorem digitChar_toNat (d : Nat) (h : d < 10) : (digitChar d).toNat = 48 + d := by
  interval_cases d <;> decide

theorem decDigits_lt10 : ∀ (fuel n : Nat), ∀ d ∈ decDigits fuel n, d < 10 := by
  intro fuel
  induction fuel with
  | zero => intro n d hd; simp [decDigits] at hd
  | succ f ih =>
    intro n d hd
    cases n with
    | zero => simp [decDigits] at hd
    | succ n' =>
      simp only [decDigits] at hd
      rcases List.mem_cons.mp hd with rfl | hd'
      · omega
      · exact ih _ d hd'

theorem decVal_decDigits : ∀ (fuel n : Nat), n ≤ fuel → decVal (decDigits fuel n) = n := by
  intro fuel
  induction fuel with
  | zero =>
    intro n h
    interval_cases n
    rfl
  | succ f ih =>
    intro n h
    cases n with
    | zero => rfl
    | succ n' =>
      have hdiv : (n' + 1) / 10 ≤ f := by
        have := Nat.div_lt_self (Nat.succ_pos n') (by norm_num : 1 < 10)
        omega
      simp only [decDigits, decVal, ih _ hdiv]
      omega

theorem mapDigit_inj : ∀ (l1 l2 : List Nat), (∀ d ∈ l1, d < 10) → (∀ d ∈ l2, d < 10) →
    l1.map digitChar = l2.map digitChar → l1 = l2 := by
  intro l1
  induction l1 with
  | nil =>
    intro l2 _ _ h
    cases l2 with
    | nil => rfl
    | cons d l2' => simp at h
  | cons d l1' ih =>
    intro l2 h1 h2 h
    cases l2 with
    | nil => simp at h
    | cons e l2' =>
      simp only [List.map_cons, List.cons.injEq] at h
      have hd : d < 10 := h1 d (List.mem_cons_self _ _)
      have he : e < 10 := h2 e (List.mem_cons_self _ _)
      have hde : d = e := by
        have := congrArg Char.toNat h.1
        rw [digitChar_toNat d hd, digitChar_toNat e he] at this
        omega
      rw [hde, ih l2' (fun x hx => h1 x (List.mem_cons_of_mem _ hx))
        (fun x hx => h2 x (List.mem_cons_of_mem _ hx)) h.2]

theorem pyIntRepr_inj (a b : Nat) (ha : 0 < a) (hb : 0 < b)
    (h : pyIntRepr a = pyIntRepr b) : a = b := by
  rw [pyIntRepr, pyIntRepr, if_neg (by omega), if_neg (by omega)] at h
  have h2 : (decDigits a a).map digitChar = (decDigits b b).map digitChar :=
    List.reverse_injective h
  have h3 := mapDigit_inj _ _ (decDigits_lt10 a a) (decDigits_lt10 b b) h2
  have ha2 := decVal_decDigits a a (le_refl a)
  have hb2 := decVal_decDigits b b (le_refl b)
  rw [← ha2, ← hb2, h3]

theorem sufCand_inj (base : PyStr) (i j : Nat) (hi : 0 < i) (hj : 0 < j)
    (h : sufCand base i = sufCand base j) : i = j := by
  rw [sufCand, sufCand] at h
  have h2 := List.append_cancel_left h
  simp only [List.cons.injEq, true_and] at h2
  exact pyIntRepr_inj i j hi hj h2

/-! ### Column sanitizer: the collision loop always reaches a free name -/

theorem isFreeB_false_iff (seen : List PyStr) (s : PyStr) :
    isFreeB seen s = false ↔ (s ∈ seen ∨ s = geometryStr) := by
  simp only [isFreeB, Bool.not_eq_false', Bool.or_eq_true, decide_eq_true_eq]

theorem isFreeB_true_iff (seen : List PyStr) (s : PyStr) :
    isFreeB seen s = true ↔ (s ∉ seen ∧ s ≠ geometryStr) := by
  simp [isFreeB]

theorem exists_free (seen : List PyStr) (base : PyStr) :
    ∃ j, 2 ≤ j ∧ j < seen.length + 4 ∧ isFreeB seen (sufCand base j) = true := by
  by_contra hcon
  push_neg at hcon
  have hmap : ∀ j ∈ Finset.Icc 2 (seen.length + 3),
      sufCand base j ∈ (geometryStr :: seen).toFinset := by
    intro j hj
    rw [Finset.mem_Icc] at hj
    have hne := hcon j hj.1 (by omega)
    have hfalse : isFreeB seen (sufCand base j) = false := Bool.eq_false_iff.mpr hne
    rcases (isFreeB_false_iff seen _).mp hfalse with h | h
    · exact List.mem_toFinset.mpr (List.mem_cons_of_mem _ h)
    · rw [h]
      exact List.mem_toFinset.mpr (List.mem_cons_self _ _)
  have hcard : ((geometryStr :: seen).toFinset).card < (Finset.Icc 2 (seen.length + 3)).card := by
    have h1 : ((geometryStr :: seen).toFinset).card ≤ (geometryStr :: seen).length :=
      List.toFinset_card_le _
    rw [Nat.card_Icc]
    simp only [List.length_cons] at h1
    omega
  obtain ⟨x, hx, y, hy, hxy, hfxy⟩ :=
    Finset.exists_ne_map_eq_of_card_lt_of_maps_to hcard hmap
  rw [Finset.mem_Icc] at hx hy
  exact hxy (sufCand_inj base x y (by omega) (by omega) hfxy)

theorem findSuf_spec (seen : List PyStr) (base : PyStr) :
    ∀ (fuel i : Nat),
      (∃ j, i ≤ j ∧ j < i + fuel ∧ isFreeB seen (sufCand base j) = true) →
      ∃ j, i ≤ j ∧ findSuf seen base i fuel = sufCand base j ∧
        isFreeB seen (sufCand base j) = true ∧
        ∀ k, i ≤ k → k < j → isFreeB seen (sufCand base k) = false := by
  intro fuel
  induction fuel with
  | zero =>
    rintro i ⟨j, hij, hj, _⟩
    omega
  | succ f ih =>
    intro i hex
    by_cases hfree : isFreeB seen (sufCand base i) = true
    · refine ⟨i, le_refl i, by simp [findSuf, hfree], hfree, ?_⟩
      intro k hk1 hk2
      omega
    · have hfalse : isFreeB seen (sufCand base i) = false := Bool.eq_false_iff.mpr hfree
      obtain ⟨j, hij, hj, hjf⟩ := hex
      have hji : j ≠ i := fun h => hfree (h ▸ hjf)
      obtain ⟨j', hij', heq, hjf', hmin⟩ :=
        ih (i + 1) ⟨j, by omega, by omega, hjf⟩
      refine ⟨j', by omega, ?_, hjf', ?_⟩
      · simpa [findSuf, hfalse] using heq
      · intro k hk1 hk2
        by_cases hki : k = i
        · exact hki ▸ hfalse
        · exact hmin k (by omega) hk2

theorem resolveName_isFirstFree (seen : List PyStr) (base : PyStr) :
    IsFirstFree (fun x => x ∈ seen) base (resolveName seen base) := by
  have hforb : ∀ s, UsedForbidden (fun x => x ∈ seen) s ↔ isFreeB seen s = false := by
    intro s
    rw [isFreeB_false_iff]
    exact Iff.rfl
  by_cases hfree : isFreeB seen base = true
  · left
    refine ⟨?_, by simp [resolveName, hfree]⟩
    rw [hforb, hfree]
    simp
  · right
    have hfalse : isFreeB seen base = false := Bool.eq_false_iff.mpr hfree
    refine ⟨(hforb base).mpr hfalse, ?_⟩
    obtain ⟨j0, hj0, hj0lt, hj0f⟩ := exists_free seen base
    obtain ⟨j, hj2, heq, hjf, hmin⟩ :=
      findSuf_spec seen base (seen.length + 2) 2 ⟨j0, hj0, by omega, hj0f⟩
    refine ⟨j, hj2, ?_, ?_, ?_⟩
    · simpa [resolveName, hfalse] using heq
    · rw [hforb, hjf]
      simp
    · intro k hk2 hkj
      exact (hforb _).mpr (hmin k hk2 hkj)

theorem resolveName_free (seen : List PyStr) (base : PyStr) :
    resolveName seen base ∉ seen ∧ resolveName seen base ≠ geometryStr := by
  rcases resolveName_isFirstFree seen base with ⟨hnf, he⟩ | ⟨_, j, _, he, hnf, _⟩ <;>
  · rw [he]
    rw [UsedForbidden] at hnf
    push_neg at hnf
    exact hnf

theorem IsFirstFree_congr (used1 used2 : PyStr → Prop) (h : ∀ x, used1 x ↔ used2 x)
    (base cc : PyStr) : IsFirstFree used1 base cc ↔ IsFirstFree used2 base cc := by
  have he : UsedForbidden used1 = UsedForbidden used2 := by
    funext x
    exact propext (or_congr_left (h x))
  rw [IsFirstFree, IsFirstFree, he]

/-! ### Column sanitizer: structure of the output -/

theorem sanitizeGo_length : ∀ (cols seen : List PyStr),
    (sanitizeGo cols seen).length = cols.length := by
  intro cols
  induction cols with
  | nil => intro seen; rfl
  | cons c rest ih =>
    intro seen
    by_cases hc : c = geometryStr
    · simp [sanitizeGo, hc, ih]
    · simp [sanitizeGo, hc, ih]

theorem sanitizeGo_geom : ∀ (cols seen : List PyStr) (i : Nat),
    cols[i]? = some geometryStr → (sanitizeGo cols seen)[i]? = some geometryStr := by
  intro cols
  induction cols with
  | nil => intro seen i h; simp at h
  | cons c rest ih =>
    intro seen i h
    cases i with
    | zero =>
      rw [List.getElem?_cons_zero, Option.some.injEq] at h
      subst h
      simp [sanitizeGo]
    | succ i' =>
      rw [List.getElem?_cons_succ] at h
      by_cases hc : c = geometryStr
      · have hstep : sanitizeGo (c :: rest) seen = c :: sanitizeGo rest seen := by
          simp [sanitizeGo, hc]
        rw [hstep, List.getElem?_cons_succ]
        exact ih seen i' h
      · have hstep : sanitizeGo (c :: rest) seen
            = resolveName seen (defaultSlug c) :: sanitizeGo rest (resolveName seen (defaultSlug c) :: seen) := by
          simp [sanitizeGo, hc]
        rw [hstep, List.getElem?_cons_succ]
        exact ih _ i' h

theorem sanitizeGo_filter_spec : ∀ (cols seen : List PyStr),
    ((sanitizeGo cols seen).filter (fun x => decide (x ≠ geometryStr))).Nodup ∧
    ∀ x ∈ (sanitizeGo cols seen).filter (fun x => decide (x ≠ geometryStr)),
      x ∉ seen ∧ x ≠ geometryStr := by
  intro cols
  induction cols with
  | nil =>
    intro seen
    exact ⟨by simp [sanitizeGo], by simp [sanitizeGo]⟩
  | cons c rest ih =>
    intro seen
    by_cases hc : c = geometryStr
    · have hstep : sanitizeGo (c :: rest) seen = c :: sanitizeGo rest seen := by
        simp [sanitizeGo, hc]
      have hdrop : (sanitizeGo (c :: rest) seen).filter (fun x => decide (x ≠ geometryStr))
          = (sanitizeGo rest seen).filter (fun x => decide (x ≠ geometryStr)) := by
        rw [hstep, List.filter_cons, hc]
        simp
      rw [hdrop]
      exact ih seen
    · have hstep : sanitizeGo (c :: rest) seen
          = resolveName seen (defaultSlug c)
            :: sanitizeGo rest (resolveName seen (defaultSlug c) :: seen) := by
        simp [sanitizeGo, hc]
      have hfree := resolveName_free seen (defaultSlug c)
      have hkeep : (sanitizeGo (c :: rest) seen).filter (fun x => decide (x ≠ geometryStr))
          = resolveName seen (defaultSlug c)
            :: (sanitizeGo rest (resolveName seen (defaultSlug c) :: seen)).filter
                (fun x => decide (x ≠ geometryStr)) := by
        rw [hstep, List.filter_cons]
        simp [hfree.2]
      obtain ⟨ihn, ihm⟩ := ih (resolveName seen (defaultSlug c) :: seen)
      rw [hkeep]
      constructor
      · rw [List.nodup_cons]
        exact ⟨fun hmem => (ihm _ hmem).1 (List.mem_cons_self _ _), ihn⟩
      · intro x hx
        rcases List.mem_cons.mp hx with rfl | hx'
        · exact ⟨hfree.1, hfree.2⟩
        · have hm := ihm x hx'
          exact ⟨fun hxs => hm.1 (List.mem_cons_of_mem _ hxs), hm.2⟩

theorem sanitizeGo_nonGeom : ∀ (cols seen : List PyStr) (i : Nat) (c : PyStr),
    cols[i]? = some c → c ≠ geometryStr →
    ∃ cc, (sanitizeGo cols seen)[i]? = some cc ∧
      IsFirstFree
        (fun x => x ∈ seen ∨
          x ∈ ((sanitizeGo cols seen).take i).filter (fun y => decide (y ≠ geometryStr)))
        (defaultSlug c) cc := by
  intro cols
  induction cols with
  | nil => intro seen i c h _; simp at h
  | cons c0 rest ih =>
    intro seen i c h hc
    by_cases hg : c0 = geometryStr
    · have hstep : sanitizeGo (c0 :: rest) seen = c0 :: sanitizeGo rest seen := by
        simp [sanitizeGo, hg]
      cases i with
      | zero =>
        rw [List.getElem?_cons_zero, Option.some.injEq] at h
        exact absurd (h ▸ hg) hc
      | succ i' =>
        rw [List.getElem?_cons_succ] at h
        obtain ⟨cc, hcc, hff⟩ := ih seen i' c h hc
        refine ⟨cc, by rw [hstep, List.getElem?_cons_succ]; exact hcc, ?_⟩
        have hused : ((sanitizeGo (c0 :: rest) seen).take (i' + 1)).filter
              (fun y => decide (y ≠ geometryStr))
            = ((sanitizeGo rest seen).take i').filter (fun y => decide (y ≠ geometryStr)) := by
          rw [hstep, List.take_succ_cons, List.filter_cons, hg]
          simp
        rw [show (fun x => x ∈ seen ∨
            x ∈ ((sanitizeGo (c0 :: rest) seen).take (i' + 1)).filter
              (fun y => decide (y ≠ geometryStr)))
          = (fun x => x ∈ seen ∨
            x ∈ ((sanitizeGo rest seen).take i').filter (fun y => decide (y ≠ geometryStr)))
          from by rw [hused]]
        exact hff
    · have hstep : sanitizeGo (c0 :: rest) seen
          = resolveName seen (defaultSlug c0)
            :: sanitizeGo rest (resolveName seen (defaultSlug c0) :: seen) := by
        simp [sanitizeGo, hg]
      cases i with
      | zero =>
        rw [List.getElem?_cons_zero, Option.some.injEq] at h
        subst h
        refine ⟨resolveName seen (defaultSlug c0), ?_, ?_⟩
        · rw [hstep, List.getElem?_cons_zero]
        · have hbase := resolveName_isFirstFree seen (defaultSlug c0)
          refine (IsFirstFree_congr _ _ (fun x => ?_) _ _).mp hbase
          simp
      | succ i' =>
        rw [List.getElem?_cons_succ] at h
        obtain ⟨cc, hcc, hff⟩ :=
          ih (resolveName seen (defaultSlug c0) :: seen) i' c h hc
        refine ⟨cc, by rw [hstep, List.getElem?_cons_succ]; exact hcc, ?_⟩
        have hfree := resolveName_free seen (defaultSlug c0)
        have hused : ((sanitizeGo (c0 :: rest) seen).take (i' + 1)).filter
              (fun y => decide (y ≠ geometryStr))
            = resolveName seen (defaultSlug c0)
              :: ((sanitizeGo rest (resolveName seen (defaultSlug c0) :: seen)).take i').filter
                  (fun y => decide (y ≠ geometryStr)) := by
          rw [hstep, List.take_succ_cons, List.filter_cons]
          simp [hfree.2]
        refine (IsFirstFree_congr _ _ (fun x => ?_) _ _).mp hff
        rw [hused]
        simp only [List.mem_cons]
        tauto

/-- Claim C3: `sanitize_columns` preserves length and processes columns left to
right: a column literally named `"geometry"` passes through unchanged; every
other column becomes its normalized name (`slugify`, empty defaulting to
`"col"`), resolved against the already-used names and the reserved name
`"geometry"` by the first free candidate of `base, base_2, base_3, …` (so the
first occurrence keeps the unsuffixed name and later collisions get the
smallest free suffix); the non-geometry outputs are pairwise distinct; and the
duplicate example `["ID", "id", "Id "]` yields `id, id_2, id_3` in input
order. -/
theorem sanitize_columns_spec (cols : List PyStr) :
    ((sanitize_columns cols).length = cols.length) ∧
    (∀ i : Nat, cols[i]? = some geometryStr →
      (sanitize_columns cols)[i]? = some geometryStr) ∧
    ((sanitize_columns cols).filter (fun x => decide (x ≠ geometryStr))).Nodup ∧
    (∀ (i : Nat) (c : PyStr), cols[i]? = some c → c ≠ geometryStr →
      ∃ cc, (sanitize_columns cols)[i]? = some cc ∧
        IsFirstFree
          (fun x => x ∈ ((sanitize_columns cols).take i).filter
            (fun y => decide (y ≠ geometryStr)))
          (defaultSlug c) cc) ∧
    (sanitize_columns ["ID".toList, "id".toList, "Id ".toList]
      = ["id".toList, "id_2".toList, "id_3".toList]) := by
  refine ⟨sanitizeGo_length cols [], ?_, (sanitizeGo_filter_spec cols []).1, ?_, by decide⟩
  · intro i h
    exact sanitizeGo_geom cols [] i h
  · intro i c h hc
    obtain ⟨cc, hcc, hff⟩ := sanitizeGo_nonGeom cols [] i c h hc
    refine ⟨cc, hcc, (IsFirstFree_congr _ _ (fun x => ?_) _ _).mp hff⟩
    simp [sanitize_columns]

/-- Witness for C3 at the duplicate example: the second column `"id"` resolves
to the first free suffixed candidate relative to the name already used by the
first column. -/
theorem sanitize_columns_spec_witness :
    ∃ cc, (sanitize_columns ["ID".toList, "id".toList, "Id ".toList])[1]? = some cc ∧
      IsFirstFree
        (fun x => x ∈ ((sanitize_columns ["ID".toList, "id".toList, "Id ".toList]).take 1).filter
          (fun y => decide (y ≠ geometryStr)))
        (defaultSlug ("id".toList)) cc :=
  (sanitize_columns_spec ["ID".toList, "id".toList, "Id ".toList]).2.2.2.1 1 ("id".toList)
    (by decide) (by decide)
